import Mathlib

/-!
Verification of the appointment calendar/scheduling core of the TCM clinic
web client (`client/app/appointments/page.tsx` and the booking page).

The JavaScript `Date` values manipulated by the page are modelled by their
calendar components (proleptic Gregorian, as specified by ECMAScript):
a date is a `(year, month, day)` triple with `month` 0-based as in JS.
The ECMAScript `MakeDay` normalisation (used by the `Date` constructor and
by `setDate`/`setMonth`/`setFullYear`) is modelled by `normDayAux`/`mkDay`:
an out-of-range day-of-month is resolved by walking month by month, which
computes exactly the calendar day `MakeDay` denotes.  All divisions below
are Euclidean (`Int./`, `Int.%`), which agree with the mathematical floor
division ECMAScript specifies, since every divisor involved is positive.
-/

namespace TCM

/-- Proleptic Gregorian leap-year rule (the calendar ECMAScript `Date` uses). -/
def isLeap (y : Int) : Bool :=
  (y % 4 == 0 && y % 100 != 0) || y % 400 == 0

/-- Number of days in month `m` (0-based, JS convention) of year `y`. -/
def daysInMonth (y : Int) (m : Nat) : Int :=
  match m with
  | 1 => if isLeap y then 29 else 28
  | 3 => 30
  | 5 => 30
  | 8 => 30
  | 10 => 30
  | _ => 31

/-- A calendar date as the triple of components a JS `Date` exposes via
`getFullYear` / `getMonth` (0-based) / `getDate`. -/
structure CivilDate where
  year : Int
  month : Nat
  day : Int
deriving DecidableEq, Repr

/-- Year of the month preceding `(y, m)`. -/
def prevY (y : Int) (m : Nat) : Int := if m = 0 then y - 1 else y

/-- Month index of the month preceding month `m`. -/
def prevM (m : Nat) : Nat := if m = 0 then 11 else m - 1

/-- Year of the month following `(y, m)`. -/
def nextY (y : Int) (m : Nat) : Int := if m = 11 then y + 1 else y

/-- Month index of the month following month `m`. -/
def nextM (m : Nat) : Nat := if m = 11 then 0 else m + 1

/-- Fuel-driven day-of-month normalisation: walks the out-of-range day
into the previous/next months, exactly as ECMAScript `MakeDay` resolves
`new Date(y, m, d)` for an arbitrary integer `d`. -/
def normDayAux : Nat → Int → Nat → Int → CivilDate
  | 0, y, m, d => ⟨y, m, d⟩
  | fuel + 1, y, m, d =>
    if d < 1 then
      normDayAux fuel (prevY y m) (prevM m) (d + daysInMonth (prevY y m) (prevM m))
    else if daysInMonth y m < d then
      normDayAux fuel (nextY y m) (nextM m) (d - daysInMonth y m)
    else ⟨y, m, d⟩

/-- `mkDay y m d` is the calendar day denoted by year `y`, month `m` (0-based,
in range) and an arbitrary integer day-of-month `d`.  The fuel
`d.natAbs + 40` always suffices: every recursive step moves `d` towards the
valid range by at least 28. -/
def mkDay (y : Int) (m : Nat) (d : Int) : CivilDate :=
  normDayAux (d.natAbs + 40) y m d

/-- `new Date(y, m, d)` for arbitrary integer month `m`: ECMAScript first
normalises the month into the year, then resolves the day (`MakeDay`). -/
def jsDate (y : Int) (m : Int) (d : Int) : CivilDate :=
  mkDay (y + m / 12) (m % 12).toNat d

/-- `date.setDate d` (month and year kept, day resolved by `MakeDay`). -/
def setDate (dt : CivilDate) (d : Int) : CivilDate :=
  mkDay dt.year dt.month d

/-- `date.setMonth m` (year adjusted by the month overflow, day resolved). -/
def setMonth (dt : CivilDate) (m : Int) : CivilDate :=
  jsDate dt.year m dt.day

/-- `date.setFullYear y` (month and day kept, day resolved by `MakeDay`). -/
def setFullYear (dt : CivilDate) (y : Int) : CivilDate :=
  mkDay y dt.month dt.day

/-- A `CivilDate` that is in normal form (what `getFullYear`/`getMonth`/
`getDate` of an actual JS `Date` always return). -/
def ValidDate (dt : CivilDate) : Prop :=
  dt.month < 12 ∧ 1 ≤ dt.day ∧ dt.day ≤ daysInMonth dt.year dt.month

instance (dt : CivilDate) : Decidable (ValidDate dt) := by
  unfold ValidDate; infer_instance

/-- Leap years up to `y`, used for the linear day count. -/
def leapCount (y : Int) : Int := y / 4 - y / 100 + y / 400

/-- `1` on leap years, else `0`. -/
def leapOne (y : Int) : Int := if isLeap y then 1 else 0

/-- Days strictly before month `m` (0-based) in year `y`. -/
def daysBeforeMonth (y : Int) (m : Nat) : Int :=
  match m with
  | 0 => 0
  | 1 => 31
  | 2 => 59 + leapOne y
  | 3 => 90 + leapOne y
  | 4 => 120 + leapOne y
  | 5 => 151 + leapOne y
  | 6 => 181 + leapOne y
  | 7 => 212 + leapOne y
  | 8 => 243 + leapOne y
  | 9 => 273 + leapOne y
  | 10 => 304 + leapOne y
  | _ => 334 + leapOne y

/-- Linear day count of the calendar day `(y, m, d)` (also meaningful for an
out-of-range `d`).  Normalised so that its value modulo 7 is the JS weekday
(`getDay`): day `0` of the count falls on a Sunday. -/
def epochDay (y : Int) (m : Nat) (d : Int) : Int :=
  365 * y + leapCount (y - 1) + daysBeforeMonth y m + (d - 1)

/-- Linear day count of a `CivilDate`. -/
def edate (dt : CivilDate) : Int := epochDay dt.year dt.month dt.day

/-- `date.getDay()`: weekday, 0 = Sunday … 6 = Saturday. -/
def getDay (dt : CivilDate) : Nat := ((edate dt) % 7).toNat

/-! ### Arithmetic facts about the calendar model -/

theorem daysInMonth_bounds (y : Int) (m : Nat) :
    28 ≤ daysInMonth y m ∧ daysInMonth y m ≤ 31 := by
  unfold daysInMonth
  split
  · split <;> omega
  all_goals omega

theorem leapCount_step (x : Int) : leapCount x - leapCount (x - 1) = leapOne x := by
  unfold leapCount leapOne isLeap
  have h4 : x / 4 - (x - 1) / 4 = if x % 4 = 0 then 1 else 0 := by split <;> omega
  have h100 : x / 100 - (x - 1) / 100 = if x % 100 = 0 then 1 else 0 := by split <;> omega
  have h400 : x / 400 - (x - 1) / 400 = if x % 400 = 0 then 1 else 0 := by split <;> omega
  simp only [Bool.or_eq_true, Bool.and_eq_true, beq_iff_eq, bne_iff_ne]
  split <;> omega

theorem daysBeforeMonth_step (y : Int) (m : Nat) (hm : m < 11) :
    daysBeforeMonth y m + daysInMonth y m = daysBeforeMonth y (m + 1) := by
  interval_cases m <;> cases hL : isLeap y <;>
    simp [daysBeforeMonth, daysInMonth, leapOne, hL]

theorem epochDay_borrow (y : Int) (m : Nat) (hm : m < 12) (d : Int) :
    epochDay (prevY y m) (prevM m) (d + daysInMonth (prevY y m) (prevM m)) =
      epochDay y m d := by
  rcases Nat.eq_zero_or_pos m with h0 | hpos
  · subst h0
    have hpy : prevY y 0 = y - 1 := rfl
    have hpm : prevM 0 = 11 := rfl
    rw [hpy, hpm]
    unfold epochDay
    have h1 : daysBeforeMonth (y - 1) 11 = 334 + leapOne (y - 1) := rfl
    have h2 : daysInMonth (y - 1) 11 = 31 := rfl
    have h3 : daysBeforeMonth y 0 = 0 := rfl
    have hstep := leapCount_step (y - 1)
    omega
  · have hne : m ≠ 0 := Nat.pos_iff_ne_zero.mp hpos
    have hpy : prevY y m = y := by unfold prevY; rw [if_neg hne]
    have hpm : prevM m = m - 1 := by unfold prevM; rw [if_neg hne]
    rw [hpy, hpm]
    unfold epochDay
    have hstep : daysBeforeMonth y (m - 1) + daysInMonth y (m - 1) =
        daysBeforeMonth y (m - 1 + 1) := daysBeforeMonth_step y (m - 1) (by omega)
    rw [Nat.sub_add_cancel hpos] at hstep
    omega

theorem epochDay_carry (y : Int) (m : Nat) (hm : m < 12) (d : Int) :
    epochDay (nextY y m) (nextM m) (d - daysInMonth y m) = epochDay y m d := by
  rcases Nat.lt_or_ge m 11 with hlt | hge
  · have hne : m ≠ 11 := by omega
    have hny : nextY y m = y := by unfold nextY; rw [if_neg hne]
    have hnm : nextM m = m + 1 := by unfold nextM; rw [if_neg hne]
    rw [hny, hnm]
    unfold epochDay
    have hstep := daysBeforeMonth_step y m hlt
    omega
  · have h11 : m = 11 := by omega
    subst h11
    have hny : nextY y 11 = y + 1 := rfl
    have hnm : nextM 11 = 0 := rfl
    rw [hny, hnm]
    unfold epochDay
    have h1 : daysBeforeMonth y 11 = 334 + leapOne y := rfl
    have h2 : daysInMonth y 11 = 31 := rfl
    have h3 : daysBeforeMonth (y + 1) 0 = 0 := rfl
    have hy : y + 1 - 1 = y := by ring
    rw [hy]
    have hstep := leapCount_step y
    omega

theorem prevM_lt (m : Nat) (hm : m < 12) : prevM m < 12 := by
  unfold prevM; split <;> omega

theorem nextM_lt (m : Nat) (hm : m < 12) : nextM m < 12 := by
  unfold nextM; split <;> omega

theorem edate_normDayAux (fuel : Nat) :
    ∀ (y : Int) (m : Nat), m < 12 → ∀ d : Int,
      edate (normDayAux fuel y m d) = epochDay y m d := by
  induction fuel with
  | zero => intro y m _ d; rfl
  | succ fuel ih =>
    intro y m hm d
    unfold normDayAux
    split
    · rw [ih _ _ (prevM_lt m hm) _, epochDay_borrow y m hm]
    · split
      · rw [ih _ _ (nextM_lt m hm) _, epochDay_carry y m hm]
      · rfl

theorem edate_mkDay (y : Int) (m : Nat) (hm : m < 12) (d : Int) :
    edate (mkDay y m d) = epochDay y m d :=
  edate_normDayAux _ y m hm d

/-- One-step characterisation: an in-range day needs no normalisation. -/
theorem mkDay_of_valid (y : Int) (m : Nat) (d : Int)
    (h1 : 1 ≤ d) (h2 : d ≤ daysInMonth y m) : mkDay y m d = ⟨y, m, d⟩ := by
  unfold mkDay
  have hf : d.natAbs + 40 = (d.natAbs + 39) + 1 := by omega
  rw [hf]
  unfold normDayAux
  rw [if_neg (by omega), if_neg (by omega)]

/-- One-step characterisation: a single borrow from the previous month. -/
theorem mkDay_borrow (y : Int) (m : Nat) (d : Int) (h0 : d < 1)
    (h1 : 1 ≤ d + daysInMonth (prevY y m) (prevM m)) :
    mkDay y m d = ⟨prevY y m, prevM m, d + daysInMonth (prevY y m) (prevM m)⟩ := by
  unfold mkDay
  have hf : d.natAbs + 40 = ((d.natAbs + 38) + 1) + 1 := by omega
  rw [hf]
  unfold normDayAux
  rw [if_pos h0]
  unfold normDayAux
  rw [if_neg (by omega), if_neg (by omega)]

/-- One-step characterisation: a single carry into the next month. -/
theorem mkDay_carry (y : Int) (m : Nat) (d : Int) (h0 : daysInMonth y m < d)
    (h1 : d - daysInMonth y m ≤ daysInMonth (nextY y m) (nextM m)) :
    mkDay y m d = ⟨nextY y m, nextM m, d - daysInMonth y m⟩ := by
  have hb := daysInMonth_bounds y m
  have hb2 := daysInMonth_bounds (nextY y m) (nextM m)
  unfold mkDay
  have hf : d.natAbs + 40 = ((d.natAbs + 38) + 1) + 1 := by omega
  rw [hf]
  unfold normDayAux
  rw [if_neg (by omega), if_pos (by omega)]
  unfold normDayAux
  rw [if_neg (by omega), if_neg (by omega)]

theorem next_prevY (y : Int) (m : Nat) (hm : m < 12) :
    nextY (prevY y m) (prevM m) = y ∧ nextM (prevM m) = m := by
  unfold prevY prevM nextY nextM
  rcases Nat.eq_zero_or_pos m with h0 | hpos
  · subst h0; simp
  · have hne : m ≠ 0 := Nat.pos_iff_ne_zero.mp hpos
    rw [if_neg hne, if_neg hne, if_neg (by omega), if_neg (by omega)]
    omega

theorem prev_nextY (y : Int) (m : Nat) (hm : m < 12) :
    prevY (nextY y m) (nextM m) = y ∧ prevM (nextM m) = m := by
  unfold prevY prevM nextY nextM
  rcases Nat.lt_or_ge m 11 with hlt | hge
  · have hne : m ≠ 11 := by omega
    rw [if_neg hne, if_neg hne, if_neg (by omega), if_neg (by omega)]
    omega
  · have h11 : m = 11 := by omega
    subst h11; simp

/-- February aside, a month's length does not depend on the year. -/
theorem daysInMonth_ne_feb (y y' : Int) (m : Nat) (hm : m ≠ 1) :
    daysInMonth y m = daysInMonth y' m := by
  unfold daysInMonth
  split
  · omega
  all_goals rfl

/-- A valid day other than February 29 fits in the same month of any year. -/
theorem day_fits_any_year (y y' : Int) (m : Nat) (d : Int)
    (hd1 : 1 ≤ d) (hd2 : d ≤ daysInMonth y m) (hfeb : ¬(m = 1 ∧ d = 29)) :
    d ≤ daysInMonth y' m := by
  by_cases h1 : m = 1
  · subst h1
    have ha : daysInMonth y 1 = if isLeap y then 29 else 28 := rfl
    have hb : daysInMonth y' 1 = if isLeap y' then 29 else 28 := rfl
    have hd29 : d ≠ 29 := fun h => hfeb ⟨rfl, h⟩
    rw [hb]
    rw [ha] at hd2
    split at hd2 <;> split <;> omega
  · rw [daysInMonth_ne_feb y' y m h1]
    exact hd2

/-! ### The view-mode state machine (appointments page)

`client/app/appointments/page.tsx` contains two near-identical page variants.
In the first (month/list) variant, `handlePrevious`/`handleNext` step the
anchor `currentMonth` by one unit of the active granularity; in the second
(full day/week/month/year) variant the same date arithmetic is applied to
`selectedDate` for day/week and to `currentMonth` for month/year.
`stepAnchorPrev`/`stepAnchorNext` are that shared per-granularity arithmetic;
`handlePrevious`/`handleNext` are the second variant's full transitions. -/

inductive ViewMode
  | day
  | week
  | month
  | year
deriving DecidableEq, Repr

inductive RightPanelMode
  | today
  | selected
deriving DecidableEq, Repr

/-- One navigation step backwards: `-1` day / `-7` days /
`setMonth(getMonth() - 1)` / `setFullYear(getFullYear() - 1)`. -/
def stepAnchorPrev : ViewMode → CivilDate → CivilDate
  | .day, dt => setDate dt (dt.day - 1)
  | .week, dt => setDate dt (dt.day - 7)
  | .month, dt => setMonth dt ((dt.month : Int) - 1)
  | .year, dt => setFullYear dt (dt.year - 1)

/-- One navigation step forwards: `+1` day / `+7` days /
`setMonth(getMonth() + 1)` / `setFullYear(getFullYear() + 1)`. -/
def stepAnchorNext : ViewMode → CivilDate → CivilDate
  | .day, dt => setDate dt (dt.day + 1)
  | .week, dt => setDate dt (dt.day + 7)
  | .month, dt => setMonth dt ((dt.month : Int) + 1)
  | .year, dt => setFullYear dt (dt.year + 1)

/-- The page state touched by the navigation handlers. -/
structure ViewState where
  selectedDate : CivilDate
  currentMonth : CivilDate
  rightPanelMode : RightPanelMode
deriving DecidableEq, Repr

/-- `handlePrevious` of the full page variant. -/
def handlePrevious (mode : ViewMode) (s : ViewState) : ViewState :=
  match mode with
  | .day =>
    { s with selectedDate := stepAnchorPrev .day s.selectedDate, rightPanelMode := .selected }
  | .week =>
    { s with selectedDate := stepAnchorPrev .week s.selectedDate, rightPanelMode := .selected }
  | .month => { s with currentMonth := stepAnchorPrev .month s.currentMonth }
  | .year => { s with currentMonth := stepAnchorPrev .year s.currentMonth }

/-- `handleNext` of the full page variant. -/
def handleNext (mode : ViewMode) (s : ViewState) : ViewState :=
  match mode with
  | .day =>
    { s with selectedDate := stepAnchorNext .day s.selectedDate, rightPanelMode := .selected }
  | .week =>
    { s with selectedDate := stepAnchorNext .week s.selectedDate, rightPanelMode := .selected }
  | .month => { s with currentMonth := stepAnchorNext .month s.currentMonth }
  | .year => { s with currentMonth := stepAnchorNext .year s.currentMonth }

/-! ### Round-trip lemmas for the four granularities -/

theorem setMonth_succ (y : Int) (m : Nat) (d : Int) (hm : m < 12)
    (hd1 : 1 ≤ d) (hd : d ≤ 28) :
    setMonth ⟨y, m, d⟩ ((m : Int) + 1) = ⟨nextY y m, nextM m, d⟩ := by
  unfold setMonth jsDate
  rcases Nat.lt_or_ge m 11 with hlt | hge
  · have h1 : ((m : Int) + 1) / 12 = 0 := by omega
    have h2 : (((m : Int) + 1) % 12).toNat = m + 1 := by omega
    rw [h1, h2]
    have hy : y + 0 = y := by ring
    rw [hy]
    have hb := daysInMonth_bounds y (m + 1)
    rw [mkDay_of_valid y (m + 1) d hd1 (by omega)]
    have hny : nextY y m = y := by unfold nextY; rw [if_neg (by omega)]
    have hnm : nextM m = m + 1 := by unfold nextM; rw [if_neg (by omega)]
    rw [hny, hnm]
  · have h11 : m = 11 := by omega
    subst h11
    have h1 : ((11 : Nat) : Int) + 1 = 12 := by norm_num
    rw [h1]
    have h2 : (12 : Int) / 12 = 1 := by norm_num
    have h3 : ((12 : Int) % 12).toNat = 0 := by norm_num
    rw [h2, h3]
    have hb := daysInMonth_bounds (y + 1) 0
    rw [mkDay_of_valid (y + 1) 0 d hd1 (by omega)]
    rfl

theorem setMonth_pred (y : Int) (m : Nat) (d : Int) (hm : m < 12)
    (hd1 : 1 ≤ d) (hd : d ≤ 28) :
    setMonth ⟨y, m, d⟩ ((m : Int) - 1) = ⟨prevY y m, prevM m, d⟩ := by
  unfold setMonth jsDate
  rcases Nat.eq_zero_or_pos m with h0 | hpos
  · subst h0
    have h1 : ((0 : Nat) : Int) - 1 = -1 := by norm_num
    rw [h1]
    have h2 : (-1 : Int) / 12 = -1 := by decide
    have h3 : ((-1 : Int) % 12).toNat = 11 := by decide
    rw [h2, h3]
    have hb := daysInMonth_bounds (y + -1) 11
    rw [mkDay_of_valid (y + -1) 11 d hd1 (by omega)]
    have hy : y + -1 = y - 1 := by ring
    rw [hy]
    rfl
  · have h1 : ((m : Int) - 1) / 12 = 0 := by omega
    have h2 : (((m : Int) - 1) % 12).toNat = m - 1 := by omega
    rw [h1, h2]
    have hy : y + 0 = y := by ring
    rw [hy]
    have hb := daysInMonth_bounds y (m - 1)
    rw [mkDay_of_valid y (m - 1) d hd1 (by omega)]
    have hne : m ≠ 0 := Nat.pos_iff_ne_zero.mp hpos
    have hpy : prevY y m = y := by unfold prevY; rw [if_neg hne]
    have hpm : prevM m = m - 1 := by unfold prevM; rw [if_neg hne]
    rw [hpy, hpm]

theorem step_day_round (y : Int) (m : Nat) (d : Int) (hm : m < 12)
    (hd1 : 1 ≤ d) (hd2 : d ≤ daysInMonth y m) :
    stepAnchorNext .day (stepAnchorPrev .day ⟨y, m, d⟩) = ⟨y, m, d⟩ ∧
      stepAnchorPrev .day (stepAnchorNext .day ⟨y, m, d⟩) = ⟨y, m, d⟩ := by
  have hbp := daysInMonth_bounds (prevY y m) (prevM m)
  have hbn := daysInMonth_bounds (nextY y m) (nextM m)
  have hb := daysInMonth_bounds y m
  have hpn := next_prevY y m hm
  have hnp := prev_nextY y m hm
  constructor
  · show stepAnchorNext .day (mkDay y m (d - 1)) = ⟨y, m, d⟩
    rcases Int.lt_or_le 1 d with h2 | h2
    · rw [mkDay_of_valid y m (d - 1) (by omega) (by omega)]
      show mkDay y m (d - 1 + 1) = ⟨y, m, d⟩
      have he : d - 1 + 1 = d := by ring
      rw [he, mkDay_of_valid y m d hd1 hd2]
    · have he : d = 1 := by omega
      subst he
      have h0 : (1 : Int) - 1 = 0 := by norm_num
      rw [h0, mkDay_borrow y m 0 (by norm_num) (by omega)]
      show mkDay (prevY y m) (prevM m)
        (0 + daysInMonth (prevY y m) (prevM m) + 1) = ⟨y, m, 1⟩
      rw [mkDay_carry (prevY y m) (prevM m) _ (by omega) (by rw [hpn.1, hpn.2]; omega)]
      rw [hpn.1, hpn.2]
      congr 1
      omega
  · show stepAnchorPrev .day (mkDay y m (d + 1)) = ⟨y, m, d⟩
    rcases Int.lt_or_le d (daysInMonth y m) with h2 | h2
    · rw [mkDay_of_valid y m (d + 1) (by omega) (by omega)]
      show mkDay y m (d + 1 - 1) = ⟨y, m, d⟩
      have he : d + 1 - 1 = d := by ring
      rw [he, mkDay_of_valid y m d hd1 hd2]
    · have he : d = daysInMonth y m := by omega
      rw [mkDay_carry y m (d + 1) (by omega) (by omega)]
      show mkDay (nextY y m) (nextM m) (d + 1 - daysInMonth y m - 1) = ⟨y, m, d⟩
      rw [mkDay_borrow (nextY y m) (nextM m) _ (by omega) (by rw [hnp.1, hnp.2]; omega)]
      rw [hnp.1, hnp.2]
      congr 1
      omega

theorem step_week_round (y : Int) (m : Nat) (d : Int) (hm : m < 12)
    (hd1 : 1 ≤ d) (hd2 : d ≤ daysInMonth y m) :
    stepAnchorNext .week (stepAnchorPrev .week ⟨y, m, d⟩) = ⟨y, m, d⟩ ∧
      stepAnchorPrev .week (stepAnchorNext .week ⟨y, m, d⟩) = ⟨y, m, d⟩ := by
  have hbp := daysInMonth_bounds (prevY y m) (prevM m)
  have hbn := daysInMonth_bounds (nextY y m) (nextM m)
  have hb := daysInMonth_bounds y m
  have hpn := next_prevY y m hm
  have hnp := prev_nextY y m hm
  constructor
  · show stepAnchorNext .week (mkDay y m (d - 7)) = ⟨y, m, d⟩
    rcases Int.lt_or_le 7 d with h2 | h2
    · rw [mkDay_of_valid y m (d - 7) (by omega) (by omega)]
      show mkDay y m (d - 7 + 7) = ⟨y, m, d⟩
      have he : d - 7 + 7 = d := by ring
      rw [he, mkDay_of_valid y m d hd1 hd2]
    · rw [mkDay_borrow y m (d - 7) (by omega) (by omega)]
      show mkDay (prevY y m) (prevM m)
        (d - 7 + daysInMonth (prevY y m) (prevM m) + 7) = ⟨y, m, d⟩
      rw [mkDay_carry (prevY y m) (prevM m) _ (by omega) (by rw [hpn.1, hpn.2]; omega)]
      rw [hpn.1, hpn.2]
      congr 1
      omega
  · show stepAnchorPrev .week (mkDay y m (d + 7)) = ⟨y, m, d⟩
    rcases Int.lt_or_le (d + 7) (daysInMonth y m + 1) with h2 | h2
    · rw [mkDay_of_valid y m (d + 7) (by omega) (by omega)]
      show mkDay y m (d + 7 - 7) = ⟨y, m, d⟩
      have he : d + 7 - 7 = d := by ring
      rw [he, mkDay_of_valid y m d hd1 hd2]
    · rw [mkDay_carry y m (d + 7) (by omega) (by omega)]
      show mkDay (nextY y m) (nextM m) (d + 7 - daysInMonth y m - 7) = ⟨y, m, d⟩
      rw [mkDay_borrow (nextY y m) (nextM m) _ (by omega) (by rw [hnp.1, hnp.2]; omega)]
      rw [hnp.1, hnp.2]
      congr 1
      omega

theorem step_month_round (y : Int) (m : Nat) (d : Int) (hm : m < 12)
    (hd1 : 1 ≤ d) (hd : d ≤ 28) :
    stepAnchorNext .month (stepAnchorPrev .month ⟨y, m, d⟩) = ⟨y, m, d⟩ ∧
      stepAnchorPrev .month (stepAnchorNext .month ⟨y, m, d⟩) = ⟨y, m, d⟩ := by
  have hpn := next_prevY y m hm
  have hnp := prev_nextY y m hm
  constructor
  · show stepAnchorNext .month (setMonth ⟨y, m, d⟩ ((m : Int) - 1)) = ⟨y, m, d⟩
    rw [setMonth_pred y m d hm hd1 hd]
    show setMonth ⟨prevY y m, prevM m, d⟩ ((prevM m : Int) + 1) = ⟨y, m, d⟩
    rw [setMonth_succ (prevY y m) (prevM m) d (prevM_lt m hm) hd1 hd, hpn.1, hpn.2]
  · show stepAnchorPrev .month (setMonth ⟨y, m, d⟩ ((m : Int) + 1)) = ⟨y, m, d⟩
    rw [setMonth_succ y m d hm hd1 hd]
    show setMonth ⟨nextY y m, nextM m, d⟩ ((nextM m : Int) - 1) = ⟨y, m, d⟩
    rw [setMonth_pred (nextY y m) (nextM m) d (nextM_lt m hm) hd1 hd, hnp.1, hnp.2]

theorem step_year_round (y : Int) (m : Nat) (d : Int) (_hm : m < 12)
    (hd1 : 1 ≤ d) (hd2 : d ≤ daysInMonth y m) (hfeb : ¬(m = 1 ∧ d = 29)) :
    stepAnchorNext .year (stepAnchorPrev .year ⟨y, m, d⟩) = ⟨y, m, d⟩ ∧
      stepAnchorPrev .year (stepAnchorNext .year ⟨y, m, d⟩) = ⟨y, m, d⟩ := by
  constructor
  · show stepAnchorNext .year (mkDay (y - 1) m d) = ⟨y, m, d⟩
    rw [mkDay_of_valid (y - 1) m d hd1 (day_fits_any_year y (y - 1) m d hd1 hd2 hfeb)]
    show mkDay (y - 1 + 1) m d = ⟨y, m, d⟩
    have he : y - 1 + 1 = y := by ring
    rw [he, mkDay_of_valid y m d hd1 hd2]
  · show stepAnchorPrev .year (mkDay (y + 1) m d) = ⟨y, m, d⟩
    rw [mkDay_of_valid (y + 1) m d hd1 (day_fits_any_year y (y + 1) m d hd1 hd2 hfeb)]
    show mkDay (y + 1 - 1) m d = ⟨y, m, d⟩
    have he : y + 1 - 1 = y := by ring
    rw [he, mkDay_of_valid y m d hd1 hd2]

/-! ### Injectivity of the linear day count on valid dates -/

theorem leapOne_bounds (y : Int) : 0 ≤ leapOne y ∧ leapOne y ≤ 1 := by
  unfold leapOne; split <;> omega

theorem daysBeforeMonth_nonneg (y : Int) (m : Nat) : 0 ≤ daysBeforeMonth y m := by
  have hL := leapOne_bounds y
  unfold daysBeforeMonth
  split <;> omega

theorem daysBeforeMonth_add_le (y : Int) (m : Nat) (hm : m < 12) :
    daysBeforeMonth y m + daysInMonth y m ≤ 365 + leapOne y := by
  have hL := leapOne_bounds y
  interval_cases m <;> cases hLp : isLeap y <;>
    simp [daysBeforeMonth, daysInMonth, leapOne, hLp]

theorem daysBeforeMonth_mono (y : Int) (m m' : Nat) (hle : m ≤ m') (hm' : m' < 12) :
    daysBeforeMonth y m ≤ daysBeforeMonth y m' := by
  induction m' with
  | zero =>
    have h0 : m = 0 := by omega
    subst h0; omega
  | succ k ih =>
    rcases Nat.lt_or_ge m (k + 1) with hlt | hge
    · have hstep := daysBeforeMonth_step y k (by omega)
      have hb := daysInMonth_bounds y k
      have hk := ih (by omega) (by omega)
      omega
    · have he : m = k + 1 := by omega
      subst he; omega

theorem daysBeforeMonth_zero (y : Int) : daysBeforeMonth y 0 = 0 := rfl

theorem edate_year_lb (dt : CivilDate) (hv : ValidDate dt) :
    epochDay dt.year 0 1 ≤ edate dt := by
  obtain ⟨hm, hd1, hd2⟩ := hv
  have h0 := daysBeforeMonth_nonneg dt.year dt.month
  unfold edate epochDay
  rw [daysBeforeMonth_zero]
  omega

theorem edate_year_ub (dt : CivilDate) (hv : ValidDate dt) :
    edate dt < epochDay (dt.year + 1) 0 1 := by
  obtain ⟨hm, hd1, hd2⟩ := hv
  have h1 := daysBeforeMonth_add_le dt.year dt.month hm
  have hL := leapOne_bounds dt.year
  unfold edate epochDay
  rw [daysBeforeMonth_zero]
  have hy : dt.year + 1 - 1 = dt.year := by ring
  rw [hy]
  have hstep := leapCount_step dt.year
  omega

theorem epochDay_year_start_mono (y y' : Int) (h : y ≤ y') :
    epochDay y 0 1 ≤ epochDay y' 0 1 := by
  refine Int.le_induction (P := fun z => epochDay y 0 1 ≤ epochDay z 0 1) ?_ ?_ y' h
  · omega
  · intro n hn ih
    have hstep2 : epochDay n 0 1 ≤ epochDay (n + 1) 0 1 := by
      unfold epochDay
      simp only [daysBeforeMonth_zero]
      have hy : n + 1 - 1 = n := by ring
      rw [hy]
      have hstep := leapCount_step n
      have hL := leapOne_bounds n
      omega
    omega

theorem edate_lt_of_year_lt (d1 d2 : CivilDate) (h1 : ValidDate d1) (h2 : ValidDate d2)
    (hy : d1.year < d2.year) : edate d1 < edate d2 :=
  lt_of_lt_of_le (edate_year_ub d1 h1)
    (le_trans (epochDay_year_start_mono (d1.year + 1) d2.year (by omega))
      (edate_year_lb d2 h2))

theorem edate_lt_of_month_lt (d1 d2 : CivilDate) (h1 : ValidDate d1) (h2 : ValidDate d2)
    (hy : d1.year = d2.year) (hmlt : d1.month < d2.month) : edate d1 < edate d2 := by
  obtain ⟨hm1, ha1, hb1⟩ := h1
  obtain ⟨hm2, ha2, hb2⟩ := h2
  have hstep := daysBeforeMonth_step d2.year d1.month (by omega)
  have hmono := daysBeforeMonth_mono d2.year (d1.month + 1) d2.month (by omega) hm2
  have hb1' : d1.day ≤ daysInMonth d2.year d1.month := hy ▸ hb1
  unfold edate epochDay
  rw [hy]
  omega

theorem edate_inj (d1 d2 : CivilDate) (h1 : ValidDate d1) (h2 : ValidDate d2)
    (he : edate d1 = edate d2) : d1 = d2 := by
  rcases lt_trichotomy d1.year d2.year with hy | hy | hy
  · exact absurd he (by have := edate_lt_of_year_lt d1 d2 h1 h2 hy; omega)
  · rcases Nat.lt_trichotomy d1.month d2.month with hmm | hmm | hmm
    · exact absurd he (by have := edate_lt_of_month_lt d1 d2 h1 h2 hy hmm; omega)
    · obtain ⟨y1, m1, dd1⟩ := d1
      obtain ⟨y2, m2, dd2⟩ := d2
      simp only at hy hmm
      subst hy; subst hmm
      simp only [edate, epochDay] at he
      have hd : dd1 = dd2 := by omega
      rw [hd]
    · exact absurd he (by have := edate_lt_of_month_lt d2 d1 h2 h1 hy.symm hmm; omega)
  · exact absurd he (by have := edate_lt_of_year_lt d2 d1 h2 h1 hy; omega)

/-- Any day argument within one month of the valid range normalises to a
valid date (covers every `setDate` the page performs). -/
theorem mkDay_valid_of_near (y : Int) (m : Nat) (d : Int) (hm : m < 12)
    (hlo : -27 ≤ d) (hhi : d ≤ daysInMonth y m + 28) : ValidDate (mkDay y m d) := by
  have hb := daysInMonth_bounds y m
  have hbp := daysInMonth_bounds (prevY y m) (prevM m)
  have hbn := daysInMonth_bounds (nextY y m) (nextM m)
  rcases Int.lt_or_le d 1 with hd1 | hd1
  · rw [mkDay_borrow y m d hd1 (by omega)]
    unfold ValidDate
    dsimp only
    exact ⟨prevM_lt m hm, by omega, by omega⟩
  · rcases Int.lt_or_le (daysInMonth y m) d with hd2 | hd2
    · rw [mkDay_carry y m d hd2 (by omega)]
      unfold ValidDate
      dsimp only
      exact ⟨nextM_lt m hm, by omega, by omega⟩
    · rw [mkDay_of_valid y m d hd1 hd2]
      exact ⟨hm, hd1, hd2⟩

/-- Day-shift is linear in the raw day count. -/
theorem epochDay_shift (y : Int) (m : Nat) (a b : Int) :
    epochDay y m a = epochDay y m b + (a - b) := by
  unfold epochDay; ring

theorem getDay_lt_7 (dt : CivilDate) : getDay dt < 7 := by
  unfold getDay
  omega

theorem getDay_cast (dt : CivilDate) : ((getDay dt : Nat) : Int) = edate dt % 7 := by
  unfold getDay
  omega

/-! ### C1: navigation round trips -/

/-- Side condition under which one navigation step is inverted by the
opposite step: always for day/week; for month when the day-of-month also
exists in the two adjacent months (day ≤ 28); for year when the anchor is
not February 29. -/
def stepRoundTripOK : ViewMode → CivilDate → Prop
  | .day, _ => True
  | .week, _ => True
  | .month, dt => dt.day ≤ 28
  | .year, dt => ¬(dt.month = 1 ∧ dt.day = 29)

instance (mode : ViewMode) (dt : CivilDate) : Decidable (stepRoundTripOK mode dt) := by
  unfold stepRoundTripOK
  cases mode <;> infer_instance

theorem step_round (mode : ViewMode) (dt : CivilDate) (hv : ValidDate dt)
    (hok : stepRoundTripOK mode dt) :
    stepAnchorNext mode (stepAnchorPrev mode dt) = dt ∧
      stepAnchorPrev mode (stepAnchorNext mode dt) = dt := by
  obtain ⟨y, m, d⟩ := dt
  obtain ⟨hm, hd1, hd2⟩ := hv
  cases mode with
  | day => exact step_day_round y m d hm hd1 hd2
  | week => exact step_week_round y m d hm hd1 hd2
  | month => exact step_month_round y m d hm hd1 hok
  | year => exact step_year_round y m d hm hd1 hd2 hok

/-- C1 (amended): navigating `next` after `previous` (or `previous` after
`next`) restores the stepped anchor — both for the shared per-granularity
anchor arithmetic (`stepAnchorPrev`/`stepAnchorNext`, the first page
variant's `handlePrevious`/`handleNext` on `currentMonth`) and for the full
variant's `handlePrevious`/`handleNext` (which step `selectedDate` for
day/week and `currentMonth` for month/year) — provided the stepped
construction does not overflow: unconditionally for day and week, for month
when the anchor's day-of-month is at most 28, and for year when the anchor
is not February 29.  (The unamended claim fails, e.g. `next` then `previous`
from Jan 31 2024 in month granularity ends at Feb 2 2024.) -/
theorem c1_nav_round_trip (mode : ViewMode) (dt : CivilDate) (s : ViewState)
    (hv : ValidDate dt) (hok : stepRoundTripOK mode dt)
    (hsel : ValidDate s.selectedDate) (hselok : stepRoundTripOK mode s.selectedDate)
    (hcur : ValidDate s.currentMonth) (hcurok : stepRoundTripOK mode s.currentMonth) :
    (stepAnchorNext mode (stepAnchorPrev mode dt) = dt ∧
      stepAnchorPrev mode (stepAnchorNext mode dt) = dt) ∧
    ((handleNext mode (handlePrevious mode s)).selectedDate = s.selectedDate ∧
      (handleNext mode (handlePrevious mode s)).currentMonth = s.currentMonth) ∧
    ((handlePrevious mode (handleNext mode s)).selectedDate = s.selectedDate ∧
      (handlePrevious mode (handleNext mode s)).currentMonth = s.currentMonth) := by
  refine ⟨step_round mode dt hv hok, ?_, ?_⟩ <;>
    cases mode <;>
      simp only [handlePrevious, handleNext] <;>
        exact ⟨by simp [(step_round _ _ hsel hselok).1, (step_round _ _ hcur hcurok).1,
                (step_round _ _ hsel hselok).2, (step_round _ _ hcur hcurok).2], by
          simp [(step_round _ _ hsel hselok).1, (step_round _ _ hcur hcurok).1,
            (step_round _ _ hsel hselok).2, (step_round _ _ hcur hcurok).2]⟩

/-- C1 counterexample: with month granularity and anchor Jan 31 2024 the
code's `next` lands on Mar 2 2024 (day-of-month overflow), and `previous`
then yields Feb 2 2024, not Jan 31 2024. -/
theorem c1_counterexample :
    stepAnchorPrev .month (stepAnchorNext .month ⟨2024, 0, 31⟩) = ⟨2024, 1, 2⟩ ∧
      stepAnchorPrev .month (stepAnchorNext .month ⟨2024, 0, 31⟩) ≠ ⟨2024, 0, 31⟩ := by
  constructor
  · decide
  · decide

theorem c1_witness :
    stepAnchorNext .month (stepAnchorPrev .month ⟨2024, 0, 15⟩) = ⟨2024, 0, 15⟩ :=
  (c1_nav_round_trip .month ⟨2024, 0, 15⟩ ⟨⟨2024, 0, 15⟩, ⟨2024, 0, 15⟩, .today⟩
    (by decide) (by decide) (by decide) (by decide) (by decide) (by decide)).1.1

/-! ### C2: the month calendar grid (`getCalendarDays`) -/

/-- `getCalendarDays` of the appointments page (both variants are
identical): `null` cells for the weekdays before the 1st of the anchored
month, then one cell per day of the month.  The month length is obtained,
as in the source, as `new Date(year, month + 1, 0).getDate()`. -/
def getCalendarDays (y : Int) (m : Nat) : List (Option CivilDate) :=
  let firstDay := jsDate y (m : Int) 1
  let lastDay := jsDate y ((m : Int) + 1) 0
  let startingDayOfWeek := getDay firstDay
  List.replicate startingDayOfWeek none ++
    (List.range' 1 lastDay.day.toNat).map
      (fun (dd : Nat) => some (jsDate y (m : Int) (dd : Int)))

theorem jsDate_eq_mkDay (y : Int) (m : Nat) (hm : m < 12) (d : Int) :
    jsDate y (m : Int) d = mkDay y m d := by
  unfold jsDate
  have h1 : ((m : Nat) : Int) / 12 = 0 := by omega
  have h2 : ((((m : Nat) : Int)) % 12).toNat = m := by omega
  rw [h1, h2]
  have hy : y + 0 = y := by ring
  rw [hy]

/-- `new Date(year, month + 1, 0).getDate()` is the length of `month`. -/
theorem lastDay_day (y : Int) (m : Nat) (hm : m < 12) :
    (jsDate y ((m : Int) + 1) 0).day = daysInMonth y m := by
  have hb := daysInMonth_bounds y m
  rcases Nat.lt_or_ge m 11 with hlt | hge
  · have he : ((m : Int) + 1) = ((m + 1 : Nat) : Int) := by omega
    rw [he, jsDate_eq_mkDay y (m + 1) (by omega) 0]
    have hpy : prevY y (m + 1) = y := by unfold prevY; rw [if_neg (by omega)]
    have hpm : prevM (m + 1) = m := by unfold prevM; rw [if_neg (by omega)]; omega
    rw [mkDay_borrow y (m + 1) 0 (by norm_num) (by rw [hpy, hpm]; omega)]
    dsimp only
    rw [hpy, hpm]
    omega
  · have h11 : m = 11 := by omega
    subst h11
    unfold jsDate
    have h1 : (((11 : Nat) : Int) + 1) / 12 = 1 := by norm_num
    have h2 : ((((11 : Nat) : Int) + 1) % 12).toNat = 0 := by norm_num
    rw [h1, h2]
    rw [mkDay_borrow (y + 1) 0 0 (by norm_num)
      (by
        have hpy : prevY (y + 1) 0 = y + 1 - 1 := rfl
        have hpm : prevM 0 = 11 := rfl
        rw [hpy, hpm]
        have : daysInMonth (y + 1 - 1) 11 = 31 := rfl
        omega)]
    have hpy : prevY (y + 1) 0 = y + 1 - 1 := rfl
    have hpm : prevM 0 = 11 := rfl
    dsimp only
    rw [hpy, hpm]
    have h31 : daysInMonth (y + 1 - 1) 11 = 31 := rfl
    have h31b : daysInMonth y 11 = 31 := rfl
    omega

/-- C2 (amended): for every month anchor the calendar grid consists of
`getDay (1st)` leading empty cells followed by one cell per day of the
month — so its length is `weekday of the 1st + daysInMonth`, which is *not*
in general a multiple of 7 (no trailing placeholder cells are produced) —
and the cell at the index equal to the weekday of the 1st (weeks starting
Sunday) holds the 1st of the month. -/
theorem c2_calendar_grid (y : Int) (m : Nat) (hm : m < 12) :
    (getCalendarDays y m).length = getDay ⟨y, m, 1⟩ + (daysInMonth y m).toNat ∧
      (getCalendarDays y m)[getDay ⟨y, m, 1⟩]? = some (some ⟨y, m, 1⟩) := by
  have hb := daysInMonth_bounds y m
  have hfirst : jsDate y (m : Int) 1 = ⟨y, m, 1⟩ := by
    rw [jsDate_eq_mkDay y m hm 1, mkDay_of_valid y m 1 (by norm_num) (by omega)]
  simp only [getCalendarDays]
  rw [hfirst, lastDay_day y m hm]
  constructor
  · rw [List.length_append, List.length_replicate, List.length_map, List.length_range']
  · rw [List.getElem?_append_right (by rw [List.length_replicate])]
    rw [List.length_replicate, Nat.sub_self, List.getElem?_map,
      List.getElem?_range' 1 1 (by omega)]
    simp [hfirst]

/-- C2 counterexample: for January 2024 the grid has
`1 (Monday) + 31 = 32` cells, which is not a multiple of 7 — the code adds
no trailing placeholders after the last day. -/
theorem c2_counterexample :
    (getCalendarDays 2024 0).length = 32 ∧ ¬(7 ∣ (getCalendarDays 2024 0).length) := by
  constructor
  · decide
  · decide

theorem c2_witness :
    (getCalendarDays 2024 0).length = getDay ⟨2024, 0, 1⟩ + (daysInMonth 2024 0).toNat ∧
      (getCalendarDays 2024 0)[getDay ⟨2024, 0, 1⟩]? = some (some ⟨2024, 0, 1⟩) :=
  c2_calendar_grid 2024 0 (by norm_num)

/-! ### C7: the Monday-to-Sunday week of an anchor (`getWeekDates`) -/

/-- The `diff` local of `getWeekDates`:
`currentDate.getDate() - day + (day === 0 ? -6 : 1)`. -/
def weekDiff (dt : CivilDate) : Int :=
  dt.day - (getDay dt : Int) + (if getDay dt = 0 then -6 else 1)

/-- `getWeekDates` of the appointments page: roll the anchor back to its
Monday via `setDate(diff)`, then take that Monday plus `0..6` days. -/
def getWeekDates (dt : CivilDate) : List CivilDate :=
  let monday := setDate dt (weekDiff dt)
  (List.range 7).map (fun (i : Nat) => setDate monday (monday.day + (i : Int)))

theorem edate_setDate (dt : CivilDate) (hm : dt.month < 12) (d : Int) :
    edate (setDate dt d) = edate dt + (d - dt.day) := by
  unfold setDate
  rw [edate_mkDay dt.year dt.month hm d, epochDay_shift dt.year dt.month d dt.day]
  unfold edate
  ring

theorem getWeekDates_getElem (dt : CivilDate) (i : Nat) (hi : i < 7) :
    (getWeekDates dt)[i]? =
      some (setDate (setDate dt (weekDiff dt))
        ((setDate dt (weekDiff dt)).day + (i : Int))) := by
  simp only [getWeekDates]
  rw [List.getElem?_map, List.getElem?_range hi]
  rfl

/-- C7: for every anchor, `getWeekDates` returns 7 dates; the first is a
Monday obtained by rolling the anchor back 6 days when it is a Sunday and
`weekday - 1` days otherwise; consecutive entries are consecutive calendar
days; and the anchor's calendar day is among the 7 entries. -/
theorem c7_week_dates (dt : CivilDate) (hv : ValidDate dt) :
    (getWeekDates dt).length = 7 ∧
    (∀ e, (getWeekDates dt)[0]? = some e → getDay e = 1 ∧
      edate e = edate dt - (getDay dt : Int) + (if getDay dt = 0 then -6 else 1)) ∧
    (∀ i : Nat, i + 1 < 7 → ∀ e1 e2, (getWeekDates dt)[i]? = some e1 →
      (getWeekDates dt)[i + 1]? = some e2 →
      ValidDate e1 ∧ ValidDate e2 ∧ edate e2 = edate e1 + 1) ∧
    (∃ i : Nat, i < 7 ∧ (getWeekDates dt)[i]? = some dt) := by
  have hm := hv.1
  have hd1 := hv.2.1
  have hd2 := hv.2.2
  have hb := daysInMonth_bounds dt.year dt.month
  have hwd7 : getDay dt < 7 := getDay_lt_7 dt
  have hcast := getDay_cast dt
  have hdiffLo : -27 ≤ weekDiff dt := by
    unfold weekDiff; split <;> omega
  have hdiffHi : weekDiff dt ≤ daysInMonth dt.year dt.month + 28 := by
    unfold weekDiff; split <;> omega
  have hMv : ValidDate (setDate dt (weekDiff dt)) :=
    mkDay_valid_of_near dt.year dt.month (weekDiff dt) hm hdiffLo hdiffHi
  have hMe : edate (setDate dt (weekDiff dt)) =
      edate dt - (getDay dt : Int) + (if getDay dt = 0 then -6 else 1) := by
    rw [edate_setDate dt hm (weekDiff dt)]
    unfold weekDiff
    ring
  have hEv : ∀ i : Nat, i < 7 →
      ValidDate (setDate (setDate dt (weekDiff dt))
        ((setDate dt (weekDiff dt)).day + (i : Int))) := by
    intro i hi
    exact mkDay_valid_of_near _ _ _ hMv.1 (by have := hMv.2.1; omega)
      (by have := hMv.2.2; omega)
  have hEe : ∀ i : Nat,
      edate (setDate (setDate dt (weekDiff dt))
        ((setDate dt (weekDiff dt)).day + (i : Int))) =
        edate (setDate dt (weekDiff dt)) + (i : Int) := by
    intro i
    rw [edate_setDate _ hMv.1]
    ring
  refine ⟨by simp [getWeekDates], ?_, ?_, ?_⟩
  · intro e he
    rw [getWeekDates_getElem dt 0 (by norm_num)] at he
    have he' := Option.some.inj he
    have heq : edate e = edate dt - (getDay dt : Int) +
        (if getDay dt = 0 then -6 else 1) := by
      rw [← he', hEe 0, hMe]
      push_cast
      ring
    refine ⟨?_, heq⟩
    unfold getDay
    rcases Nat.eq_zero_or_pos (getDay dt) with h0 | hpos
    · rw [h0] at heq hcast
      simp only [if_pos rfl] at heq
      omega
    · have hne : getDay dt ≠ 0 := Nat.pos_iff_ne_zero.mp hpos
      rw [if_neg hne] at heq
      omega
  · intro i hi e1 e2 he1 he2
    rw [getWeekDates_getElem dt i (by omega)] at he1
    rw [getWeekDates_getElem dt (i + 1) (by omega)] at he2
    have he1' := Option.some.inj he1
    have he2' := Option.some.inj he2
    refine ⟨he1' ▸ hEv i (by omega), he2' ▸ hEv (i + 1) (by omega), ?_⟩
    rw [← he1', ← he2', hEe i, hEe (i + 1)]
    omega
  · refine ⟨if getDay dt = 0 then 6 else getDay dt - 1, by split <;> omega, ?_⟩
    rw [getWeekDates_getElem dt _ (by split <;> omega)]
    congr 1
    refine edate_inj _ dt (hEv _ (by split <;> omega)) hv ?_
    rw [hEe, hMe]
    rcases Nat.eq_zero_or_pos (getDay dt) with h0 | hpos
    · rw [h0]
      simp
    · have hne : getDay dt ≠ 0 := Nat.pos_iff_ne_zero.mp hpos
      simp only [if_neg hne]
      omega

theorem c7_witness :
    (getWeekDates ⟨2024, 2, 3⟩).length = 7 ∧
    (∀ e, (getWeekDates ⟨2024, 2, 3⟩)[0]? = some e → getDay e = 1 ∧
      edate e = edate ⟨2024, 2, 3⟩ - (getDay ⟨2024, 2, 3⟩ : Int) +
        (if getDay ⟨2024, 2, 3⟩ = 0 then -6 else 1)) ∧
    (∀ i : Nat, i + 1 < 7 → ∀ e1 e2, (getWeekDates ⟨2024, 2, 3⟩)[i]? = some e1 →
      (getWeekDates ⟨2024, 2, 3⟩)[i + 1]? = some e2 →
      ValidDate e1 ∧ ValidDate e2 ∧ edate e2 = edate e1 + 1) ∧
    (∃ i : Nat, i < 7 ∧ (getWeekDates ⟨2024, 2, 3⟩)[i]? = some ⟨2024, 2, 3⟩) :=
  c7_week_dates ⟨2024, 2, 3⟩ (by decide)

/-! ### Time-slot enumerations and the overlap predicates -/

/-- `generateTimeSlots` of the appointments page: for `hour` from 8 to 20
push `(hour, 0)` and, while `hour < 20`, also `(hour, 30)`. -/
def generateTimeSlots : List (Nat × Nat) :=
  ((List.range' 8 13).map
    (fun (hour : Nat) => (hour, 0) :: (if hour < 20 then [(hour, 30)] else []))).flatten

/-- A slot of the booking page: display time plus availability flag.  The
formatted `HH:MM` string of the source is modelled by its `(hour, minute)`
components. -/
structure BookingSlot where
  hour : Nat
  minute : Nat
  available : Bool
deriving DecidableEq, Repr

/-- `generateTimeSlots` of the booking page: `hour` from 9 while `< 17`,
`minute` from 0 while `< 60` stepping 30, every slot `available: true`. -/
def generateBookingTimeSlots : List BookingSlot :=
  ((List.range' 9 8).map
    (fun (hour : Nat) => (List.range' 0 2 30).map
      (fun (minute : Nat) => (⟨hour, minute, true⟩ : BookingSlot)))).flatten

/-- `appointment.duration || 60`: absent *and* zero (falsy) default to 60. -/
def durOrDefault (duration : Option Nat) : Nat :=
  match duration with
  | none => 60
  | some 0 => 60
  | some d => d

/-- The `slotAppointments` filter of the day view, on the appointment's
start minute-of-day: `appointmentStart < slotEnd && appointmentEnd >
slotStart`, where the end is recomputed from `getHours`/`getMinutes` of
`start + duration` and therefore wraps modulo 24 hours past midnight. -/
def slotOverlapCode (startMin : Nat) (duration : Option Nat)
    (slotHour slotMinute : Nat) : Bool :=
  let dur := durOrDefault duration
  let endTotal := startMin + dur
  let endHour := (endTotal / 60) % 24
  let endMinute := endTotal % 60
  let slotStart := slotHour * 60 + slotMinute
  let slotEnd := slotStart + 30
  let appointmentEnd := endHour * 60 + endMinute
  decide (startMin < slotEnd ∧ appointmentEnd > slotStart)

/-- The `getAppointmentsForHour` / `getAppointmentsForDateAndHour` filter:
include iff the appointment starts in this hour, or starts earlier and its
(wrapped) end hour is `≥ hour`. -/
def hourOverlapCode (startMin : Nat) (duration : Option Nat) (hour : Nat) : Bool :=
  let appointmentHour := startMin / 60
  let dur := durOrDefault duration
  let endTotal := startMin + dur
  let endHour := (endTotal / 60) % 24
  decide (appointmentHour = hour ∨ (appointmentHour < hour ∧ endHour ≥ hour))

/-- Modelled from the spec: the half-open interval-intersection predicate
(`apptStart < slotEnd && apptEnd > slotStart` on true minute counts) that
§4.1 prescribes as the single shared bucketing test. -/
def overlapsSpec (apptStart apptDur slotStart slotDur : Nat) : Bool :=
  decide (apptStart < slotStart + slotDur ∧ apptStart + apptDur > slotStart)

/-- C3 counterexample: an appointment at 09:00 of duration 60 ends exactly
at 10:00; `getAppointmentsForHour` buckets it into the 10:00 hour
(`endHour >= hour`), while the half-open predicate does not — so the hour
helper does *not* agree with the single shared predicate. -/
theorem c3_counterexample :
    hourOverlapCode 540 (some 60) 10 = true ∧ overlapsSpec 540 60 600 60 = false := by
  constructor
  · decide
  · decide

/-- C3 (amended): the day view's 30-minute `slotAppointments` filter agrees
exactly with the half-open interval-intersection predicate for appointments
that do not cross midnight, and it buckets an appointment at 09:00 of
duration 90 into precisely the slots 09:00, 09:30 and 10:00; the
hour-bucketing helper `getAppointmentsForHour`, however, uses a different,
end-inclusive rule at hour granularity (see the counterexample). -/
theorem c3_slot_bucketing :
    (∀ (startMin : Nat) (duration : Option Nat) (slotHour slotMinute : Nat),
      startMin + durOrDefault duration < 1440 →
      slotOverlapCode startMin duration slotHour slotMinute =
        overlapsSpec startMin (durOrDefault duration) (slotHour * 60 + slotMinute) 30) ∧
    (∀ s ∈ generateTimeSlots,
      (slotOverlapCode 540 (some 90) s.1 s.2 = true ↔
        s = (9, 0) ∨ s = (9, 30) ∨ s = (10, 0))) := by
  constructor
  · intro startMin duration slotHour slotMinute h
    simp only [slotOverlapCode, overlapsSpec]
    rw [decide_eq_decide]
    omega
  · decide

theorem c3_witness :
    slotOverlapCode 540 (some 60) 9 0 =
      overlapsSpec 540 (durOrDefault (some 60)) (9 * 60 + 0) 30 :=
  c3_slot_bucketing.1 540 (some 60) 9 0 (by decide)

/-- C5 counterexample: the booking page's generator stops strictly before
17 (`hour < 17`), so no slot starts at 17:00 — its enumeration is
end-exclusive, unlike the claimed `endHour:00`-inclusive contract. -/
theorem c5_counterexample :
    ¬ ∃ s ∈ generateBookingTimeSlots, s.hour = 17 ∧ s.minute = 0 := by
  decide

/-- C5 (amended): the appointments page's grid enumeration runs from 08:00
to 20:00 *inclusive* in 30-minute steps (so a slot starts at 20:00), but
the booking page's enumeration runs from 09:00 *strictly below* 17:00, i.e.
09:00–16:30, and contains no 17:00 slot. -/
theorem c5_time_slots :
    generateTimeSlots =
      [(8, 0), (8, 30), (9, 0), (9, 30), (10, 0), (10, 30), (11, 0), (11, 30),
       (12, 0), (12, 30), (13, 0), (13, 30), (14, 0), (14, 30), (15, 0), (15, 30),
       (16, 0), (16, 30), (17, 0), (17, 30), (18, 0), (18, 30), (19, 0), (19, 30),
       (20, 0)] ∧
    generateBookingTimeSlots.map (fun s => (s.hour, s.minute)) =
      [(9, 0), (9, 30), (10, 0), (10, 30), (11, 0), (11, 30), (12, 0), (12, 30),
       (13, 0), (13, 30), (14, 0), (14, 30), (15, 0), (15, 30), (16, 0), (16, 30)] := by
  constructor
  · decide
  · decide

/-- C9: every slot the booking page generates is marked available; the
generator does not consult the existing appointment list at all (it takes
no such input), so this holds for every state of that list. -/
theorem c9_booking_all_available : ∀ s ∈ generateBookingTimeSlots, s.available = true := by
  decide

theorem c9_witness : (⟨9, 0, true⟩ : BookingSlot).available = true :=
  c9_booking_all_available ⟨9, 0, true⟩ (by decide)

/-! ### C4: pixel positioning of day-view appointment blocks -/

/-- The helper `getAppointmentPosition(appointment, hourHeight = 60)`:
`top = (startMinute / 60) * hourHeight`, `height = (duration / 60) *
hourHeight` (real-number division, modelled in `ℚ`).  This helper is
defined in the source but never called by the render. -/
def getAppointmentPosition (startMin : Nat) (duration : Option Nat)
    (hourHeight : ℚ) : ℚ × ℚ :=
  let startMinute := startMin % 60
  let dur := durOrDefault duration
  ((startMinute : ℚ) / 60 * hourHeight, (dur : ℚ) / 60 * hourHeight)

/-- The day-view render inside one 30-minute slot box of fixed 60px height:
if the appointment starts inside the slot, draw a block at
`top = ((start - slotStart) / 30) * 60` with
`height = max(((end - start) / 30) * 60, 40)`; otherwise draw nothing in
this slot. -/
def dayViewBlock (startMin : Nat) (duration : Option Nat)
    (slotHour slotMinute : Nat) : Option (ℚ × ℚ) :=
  let dur := durOrDefault duration
  let endTotal := startMin + dur
  let appointmentEndMinutes := ((endTotal / 60) % 24) * 60 + endTotal % 60
  let slotStartMinutes := slotHour * 60 + slotMinute
  if slotStartMinutes ≤ startMin ∧ startMin < slotStartMinutes + 30 then
    let top : ℚ := ((startMin : ℚ) - (slotStartMinutes : ℚ)) / 30 * 60
    let height : ℚ := ((appointmentEndMinutes : ℚ) - (startMin : ℚ)) / 30 * 60
    some (top, max height 40)
  else none

/-- C4 counterexample: an appointment starting 09:10 with duration 60 in
the 09:00 slot (60px high) renders at `top = 20`, `height = 120` — not the
claimed `top = (10/60)·60 = 10`, `height = (60/60)·60 = 60` (which is what
the unused helper computes). -/
theorem c4_counterexample :
    dayViewBlock 550 (some 60) 9 0 = some (20, 120) ∧
      getAppointmentPosition 550 (some 60) 60 = (10, 60) ∧
      ((20 : ℚ), (120 : ℚ)) ≠ ((10 : ℚ), (60 : ℚ)) := by
  refine ⟨?_, ?_, by norm_num⟩
  · simp only [dayViewBlock, durOrDefault]
    rw [if_pos (by omega)]
    norm_num
  · simp only [getAppointmentPosition, durOrDefault]
    norm_num

/-- C4 (amended): in the day view a block for an appointment starting in
the current slot is rendered at 2px per minute against the 30-minute/60px
slot boxes — `top = 2·(start − slotStart)` and `height = max(2·duration,
40)` for appointments not crossing midnight — rather than at the claimed
1px per minute; the claimed `(startMinuteWithinHour/60)·h` /
`(duration/60)·h` formulas are computed only by the never-invoked helper
`getAppointmentPosition` (at `h = 60`: `top = startMinute`,
`height = duration`). -/
theorem c4_day_view_position :
    (∀ (startMin : Nat) (duration : Option Nat) (slotHour slotMinute : Nat),
      slotHour * 60 + slotMinute ≤ startMin →
      startMin < slotHour * 60 + slotMinute + 30 →
      startMin + durOrDefault duration < 1440 →
      dayViewBlock startMin duration slotHour slotMinute =
        some (2 * ((startMin : ℚ) - ((slotHour * 60 + slotMinute : Nat) : ℚ)),
          max (2 * ((durOrDefault duration : Nat) : ℚ)) 40)) ∧
    (∀ (startMin : Nat) (duration : Option Nat),
      getAppointmentPosition startMin duration 60 =
        (((startMin % 60 : Nat) : ℚ), ((durOrDefault duration : Nat) : ℚ))) := by
  constructor
  · intro startMin duration slotHour slotMinute h1 h2 h3
    simp only [dayViewBlock]
    rw [if_pos ⟨h1, h2⟩]
    have hE : ((startMin + durOrDefault duration) / 60 % 24) * 60 +
        (startMin + durOrDefault duration) % 60 = startMin + durOrDefault duration := by
      omega
    rw [hE]
    have htop : ((startMin : ℚ) - ((slotHour * 60 + slotMinute : Nat) : ℚ)) / 30 * 60 =
        2 * ((startMin : ℚ) - ((slotHour * 60 + slotMinute : Nat) : ℚ)) := by
      ring
    have hht : (((startMin + durOrDefault duration : Nat) : ℚ) - (startMin : ℚ)) / 30 * 60 =
        2 * ((durOrDefault duration : Nat) : ℚ) := by
      push_cast
      ring
    rw [htop, hht]
  · intro startMin duration
    simp only [getAppointmentPosition, Prod.mk.injEq]
    constructor
    · field_simp
    · field_simp

theorem c4_witness :
    dayViewBlock 540 (some 90) 9 0 =
      some (2 * ((540 : ℚ) - ((9 * 60 + 0 : Nat) : ℚ)),
        max (2 * ((durOrDefault (some 90) : Nat) : ℚ)) 40) :=
  c4_day_view_position.1 540 (some 90) 9 0 (by decide) (by decide) (by decide)

/-! ### Appointment records and the date-bucketed computations -/

/-- The projections of a successfully parsed appointment `Date` that the
page reads: calendar components, minute of day, and `getTime()` (ms). -/
structure ParsedDate where
  date : CivilDate
  minuteOfDay : Nat
  epochMs : Int
deriving DecidableEq, Repr

/-- An appointment record as consumed by the page.  `appointmentDate =
none` models both an absent/empty `appointmentDate` (caught by the
`!appointment.appointmentDate` guards) and a malformed one (an Invalid
Date, whose NaN components make every comparison in the bucketing filters
evaluate to false, excluding the record just the same). -/
structure Appointment where
  appointmentDate : Option ParsedDate
  duration : Option Nat
deriving DecidableEq, Repr

/-- `getAppointmentsForDate`: keep appointments whose parsed date has the
same day, month and year as `date`. -/
def getAppointmentsForDate (appointments : List Appointment) (date : CivilDate) :
    List Appointment :=
  appointments.filter fun appointment =>
    match appointment.appointmentDate with
    | none => false
    | some p =>
      decide (p.date.day = date.day ∧ p.date.month = date.month ∧ p.date.year = date.year)

/-- `hasAppointments` (month-view presence dot). -/
def hasAppointments (appointments : List Appointment) (date : CivilDate) : Bool :=
  decide (0 < (getAppointmentsForDate appointments date).length)

/-- The day view's per-slot bucket: the panel date's appointments filtered
by the half-open slot test (`slotAppointments`). -/
def slotBucket (appointments : List Appointment) (date : CivilDate)
    (slotHour slotMinute : Nat) : List Appointment :=
  (getAppointmentsForDate appointments date).filter fun appointment =>
    match appointment.appointmentDate with
    | none => false
    | some p => slotOverlapCode p.minuteOfDay appointment.duration slotHour slotMinute

/-- The hour bucket used by `getAppointmentsForHour` /
`getAppointmentsForDateAndHour` (week view). -/
def hourBucket (appointments : List Appointment) (date : CivilDate) (hour : Nat) :
    List Appointment :=
  (getAppointmentsForDate appointments date).filter fun appointment =>
    match appointment.appointmentDate with
    | none => false
    | some p => hourOverlapCode p.minuteOfDay appointment.duration hour

/-- `new Date(a.appointmentDate).getTime()` as used by the sort comparators
(only reached on appointments that passed the date guard). -/
def apptTimeMs (a : Appointment) : Int :=
  match a.appointmentDate with
  | none => 0
  | some p => p.epochMs

/-- The filter of `getUpcomingAppointments`: a parseable start inside the
closed window `[now, now + 30 * 60000]` (milliseconds). -/
def upcomingPred (now : Int) (appointment : Appointment) : Bool :=
  match appointment.appointmentDate with
  | none => false
  | some p => decide (now ≤ p.epochMs ∧ p.epochMs ≤ now + 30 * 60000)

/-- `getUpcomingAppointments`: filter to the 30-minute window, then sort
ascending by start time (`timeA - timeB` comparator). -/
def getUpcomingAppointments (now : Int) (appointments : List Appointment) :
    List Appointment :=
  (appointments.filter (upcomingPred now)).mergeSort
    fun a b => decide (apptTimeMs a ≤ apptTimeMs b)

/-- `getTodayAppointments`: the half-open day window `[todayStart,
todayStart + 24h)`, sorted ascending by start time (the source compares
ISO-8601 strings with `localeCompare`, which on these timestamps orders
chronologically — modelled by the `getTime` order). -/
def getTodayAppointments (todayStartMs : Int) (appointments : List Appointment) :
    List Appointment :=
  (appointments.filter fun appointment =>
    match appointment.appointmentDate with
    | none => false
    | some p => decide (todayStartMs ≤ p.epochMs ∧ p.epochMs < todayStartMs + 86400000)).mergeSort
    fun a b => decide (apptTimeMs a ≤ apptTimeMs b)

/-- C6: an appointment with an absent (or unparseable) `appointmentDate`
is excluded from every date-bucketed computation — per-day buckets, the
day view's 30-minute slot buckets, the hour buckets of the week view, the
upcoming-30-minutes window, and today's list.  (All these computations are
total functions in this model, mirroring that the guards make the source
never throw on such records.) -/
theorem c6_unscheduled_excluded (a : Appointment) (ha : a.appointmentDate = none)
    (appointments : List Appointment) (date : CivilDate)
    (slotHour slotMinute hour : Nat) (now todayStartMs : Int) :
    a ∉ getAppointmentsForDate appointments date ∧
    a ∉ slotBucket appointments date slotHour slotMinute ∧
    a ∉ hourBucket appointments date hour ∧
    a ∉ getUpcomingAppointments now appointments ∧
    a ∉ getTodayAppointments todayStartMs appointments := by
  refine ⟨?_, ?_, ?_, ?_, ?_⟩ <;> intro hmem
  · simp [getAppointmentsForDate, List.mem_filter, ha] at hmem
  · simp [slotBucket, getAppointmentsForDate, List.mem_filter, ha] at hmem
  · simp [hourBucket, getAppointmentsForDate, List.mem_filter, ha] at hmem
  · simp [getUpcomingAppointments, List.mem_mergeSort, List.mem_filter,
      upcomingPred, ha] at hmem
  · simp [getTodayAppointments, List.mem_mergeSort, List.mem_filter, ha] at hmem

theorem c6_witness :
    (⟨none, none⟩ : Appointment) ∉
        getAppointmentsForDate [⟨none, none⟩] ⟨2024, 0, 15⟩ ∧
    (⟨none, none⟩ : Appointment) ∉ slotBucket [⟨none, none⟩] ⟨2024, 0, 15⟩ 9 0 ∧
    (⟨none, none⟩ : Appointment) ∉ hourBucket [⟨none, none⟩] ⟨2024, 0, 15⟩ 9 ∧
    (⟨none, none⟩ : Appointment) ∉ getUpcomingAppointments 0 [⟨none, none⟩] ∧
    (⟨none, none⟩ : Appointment) ∉ getTodayAppointments 0 [⟨none, none⟩] :=
  c6_unscheduled_excluded ⟨none, none⟩ rfl [⟨none, none⟩] ⟨2024, 0, 15⟩ 9 0 9 0 0

/-! ### C8: the fetch failure path -/

/-- The page state written by one `fetchAppointments` call. -/
structure FetchOutcome where
  appointments : List Appointment
  error : Option String
  loading : Bool
deriving Repr

/-- The banner message set in the catch branch. -/
def fetchFailureMessage : String :=
  "Unable to fetch appointments. Please ensure the backend server is running."

/-- `fetchAppointments`: on success store the response list; on failure set
the static error message and an empty list; the `finally` clause clears
`loading` on both paths.  The function is total: the caught error is
converted to state, not re-thrown, and nothing schedules a retry. -/
def fetchAppointments (response : Except String (List Appointment)) : FetchOutcome :=
  match response with
  | .ok data => { appointments := data, error := none, loading := false }
  | .error _ => { appointments := [], error := some fetchFailureMessage, loading := false }

/-- C8: after a failed initial fetch the appointment list is empty, the
static user-visible error message is set, and the loading flag is cleared
— for every error value.  (That the error is not re-thrown and no retry is
scheduled is reflected in `fetchAppointments` being the total, complete
effect of the single fetch.) -/
theorem c8_fetch_failure (e : String) :
    (fetchAppointments (.error e)).appointments = [] ∧
    (fetchAppointments (.error e)).error = some fetchFailureMessage ∧
    (fetchAppointments (.error e)).loading = false :=
  ⟨rfl, rfl, rfl⟩

/-! ### C10: the upcoming-appointments window -/

/-- C10: `getUpcomingAppointments` returns a permutation of exactly the
appointments with a parseable start inside the *closed* interval
`[now, now + 30 min]` (both endpoints included), sorted ascending by start
time. -/
theorem c10_upcoming_window (now : Int) (appointments : List Appointment) :
    (getUpcomingAppointments now appointments).Perm
      (appointments.filter (upcomingPred now)) ∧
    (∀ a, a ∈ getUpcomingAppointments now appointments ↔
      a ∈ appointments ∧ ∃ p, a.appointmentDate = some p ∧
        now ≤ p.epochMs ∧ p.epochMs ≤ now + 30 * 60000) ∧
    (getUpcomingAppointments now appointments).Pairwise
      (fun a b => apptTimeMs a ≤ apptTimeMs b) := by
  refine ⟨List.mergeSort_perm _ _, ?_, ?_⟩
  · intro a
    simp only [getUpcomingAppointments, List.mem_mergeSort, List.mem_filter]
    cases h : a.appointmentDate with
    | none => simp [upcomingPred, h]
    | some p => simp [upcomingPred, h]
  · have hs := @List.sorted_mergeSort Appointment
      (fun a b => decide (apptTimeMs a ≤ apptTimeMs b))
      (by intro a b c hab hbc; simp at *; omega)
      (by intro a b; simp; omega)
      (appointments.filter (upcomingPred now))
    exact hs.imp (fun h => by simpa using h)

end TCM

